import Mathlib

/-!
Verification of the Home-Page uptime dashboard.

The definitions below are a shallow embedding of the frontend aggregation
code in frontend/src/App.jsx (service deduplication, category and host
grouping, uptime statistics) and frontend/src/components/ServiceHistoryChart.jsx
(history processing and chart statistics).  The backend state machine
(StatusTracker) and the downtime-event list (DowntimeTracker) live in
backend/app.py, which is not part of the sources here; those two components
are modelled from the specification text and are marked as such.

Conventions: JavaScript timestamps (Date values) are modelled as natural
numbers; a missing or empty host field is modelled as the empty string
(matching JavaScript falsiness of "" and undefined); a missing
response_time is modelled as Option.none.
-/

namespace HomePage

/-- Service entry as delivered by the /api/v1/services endpoint and consumed
by App.jsx. -/
structure Service where
  name : String
  type : String
  status : String
  timestamp : Nat
  ping_url : String
  public_url : String
  host : String
  category : String
deriving DecidableEq, Repr

/-- One step of the latest-per-name accumulation in getServicesByCategory /
getServiceStats (App.jsx lines 229-236 and 391-396): a JavaScript object
keyed by service name, where an existing key is overwritten in place when
the incoming entry has a strictly newer timestamp.  The association is kept
as a list in key-insertion order, matching Object.values. -/
def upsertLatest (acc : List Service) (s : Service) : List Service :=
  if acc.any (fun t => t.name == s.name) then
    acc.map (fun t => if t.name == s.name && decide (t.timestamp < s.timestamp) then s else t)
  else
    acc ++ [s]

/-- Latest entry per service name (App.jsx lines 229-236). -/
def latestServices (services : List Service) : List Service :=
  services.foldl upsertLatest []

/-- One step of the latest-per-name accumulation in getServicesByHosts
(App.jsx lines 258-265); this variant additionally requires both timestamps
to be truthy (nonzero) before comparing. -/
def upsertLatestH (acc : List Service) (s : Service) : List Service :=
  if acc.any (fun t => t.name == s.name) then
    acc.map (fun t =>
      if t.name == s.name && s.timestamp != 0 && t.timestamp != 0
          && decide (t.timestamp < s.timestamp) then s else t)
  else
    acc ++ [s]

/-- Latest entry per service name as computed inside getServicesByHosts. -/
def latestServicesH (services : List Service) : List Service :=
  services.foldl upsertLatestH []

/-- Grouping by category (App.jsx getServicesByCategory, lines 228-251):
one bucket per declared category (a JavaScript object keeps one key per
distinct category, in first-insertion order), each holding the latest
services of that category in iteration order. -/
def getServicesByCategory (services : List Service) (categories : List String) :
    List (String × List Service) :=
  let latest := latestServices services
  categories.eraseDups.map (fun c => (c, latest.filter (fun s => s.category == c)))

/-- JavaScript Math.round: round half toward positive infinity. -/
def jsRound (q : ℚ) : ℤ := ⌊q + 1 / 2⌋

/-- Result record of getServiceStats (App.jsx lines 409-414). -/
structure ServiceStats where
  up : Nat
  down : Nat
  total : Nat
  uptimePercentage : ℤ
deriving DecidableEq, Repr

/-- Uptime statistics (App.jsx getServiceStats, lines 389-415): services of
type redirect and of type host are filtered out before counting. -/
def getServiceStats (services : List Service) : ServiceStats :=
  let latest := latestServices services
  let monitorableServices := latest.filter (fun s => s.type != "redirect" && s.type != "host")
  let upServices := monitorableServices.filter (fun s => s.status == "up")
  let downServices := monitorableServices.filter (fun s => s.status == "down")
  let totalServices := monitorableServices.length
  { up := upServices.length
    down := downServices.length
    total := totalServices
    uptimePercentage :=
      if 0 < totalServices then
        jsRound (((upServices.length : ℚ) / (totalServices : ℚ)) * 100)
      else 0 }

/-- One step of building the hosts object in getServicesByHosts (App.jsx
lines 277-282): keyed by ping_url, an existing key is overwritten in place
(its fresh instances array is rebuilt later). -/
def hostsUpsert (acc : List (String × Service)) (s : Service) : List (String × Service) :=
  if acc.any (fun p => p.1 == s.ping_url) then
    acc.map (fun p => if p.1 == s.ping_url then (p.1, s) else p)
  else
    acc ++ [(s.ping_url, s)]

/-- JavaScript Array.indexOf over the category list: position of the
category, or -1 when absent. -/
def catIdx (categories : List String) (c : String) : ℤ :=
  match categories.indexOf? c with
  | some i => (i : ℤ)
  | none => -1

/-- Boolean form of the sort comparator used for host instances and
redirects (App.jsx lines 310-317 and 321-328): category position first
(categories.indexOf a.category - categories.indexOf b.category), then
name (localeCompare, modelled as the string order). -/
def instLE (categories : List String) (a b : Service) : Bool :=
  if catIdx categories a.category = catIdx categories b.category then
    decide (a.name ≤ b.name)
  else
    decide (catIdx categories a.category < catIdx categories b.category)

/-- One entry of the hosts object produced by getServicesByHosts: the key
(the host service's ping_url), the host service itself, and its collected
instances. -/
structure HostEntry where
  key : String
  service : Service
  instances : List Service
deriving DecidableEq, Repr

/-- Result of getServicesByHosts (App.jsx line 331). -/
structure HostsView where
  hosts : List HostEntry
  redirects : List Service
  otherServices : List Service
deriving DecidableEq, Repr

/-- Host grouping (App.jsx getServicesByHosts, lines 254-332).  The single
classification loop over the latest services (lines 274-293) pushes each
service into exactly one of four collections according to its branch, so
each collection is the subsequence of latest services matching its branch
condition; the hosts object is folded over the host-type subsequence.  The
second loop (lines 299-306) appends each collected service to the entry
keyed by its host field, so an entry's instances are the collected services
whose host field equals its key, later sorted by the category/name
comparator (lines 309-318); redirects are sorted the same way
(lines 321-328). -/
def getServicesByHosts (services : List Service) (categories : List String) : HostsView :=
  let latest := latestServicesH services
  let hostsAssoc := (latest.filter (fun s => s.type == "host")).foldl hostsUpsert []
  let redirects := latest.filter (fun s => s.type != "host" && s.type == "redirect")
  let servicesWithHosts :=
    latest.filter (fun s => s.type != "host" && s.type != "redirect" && s.host != "")
  let otherServices :=
    latest.filter (fun s => s.type != "host" && s.type != "redirect" && s.host == "")
  { hosts := hostsAssoc.map (fun p =>
      { key := p.1
        service := p.2
        instances :=
          (servicesWithHosts.filter (fun s => s.host == p.1)).mergeSort (instLE categories) })
    redirects := redirects.mergeSort (instLE categories)
    otherServices := otherServices }

/-- History entry as delivered by /api/v1/services/history and consumed by
ServiceHistoryChart.jsx. -/
structure HistoryEntry where
  name : String
  timestamp : Nat
  status : String
  response_time : Option Nat
deriving DecidableEq, Repr

/-- Boolean form of the chronological sort comparator
(ServiceHistoryChart.jsx line 57). -/
def tsLE (a b : HistoryEntry) : Bool := decide (a.timestamp ≤ b.timestamp)

/-- Data points consumed by the chart (ServiceHistoryChart.jsx lines 55-58):
filter to the selected service, sort by timestamp ascending, keep the last
50 (slice(-50)). -/
def processedData (historyData : List HistoryEntry) (serviceName : String) : List HistoryEntry :=
  let sorted := (historyData.filter (fun i => i.name == serviceName)).mergeSort tsLE
  sorted.drop (sorted.length - 50)

/-- Status series (ServiceHistoryChart.jsx line 66): 1 for up, 0 otherwise. -/
def statusData (historyData : List HistoryEntry) (serviceName : String) : List Nat :=
  (processedData historyData serviceName).map (fun i => if i.status == "up" then 1 else 0)

/-- Response-time series (ServiceHistoryChart.jsx line 65): a missing
response_time is replaced by 0 (item.response_time || 0). -/
def responseTimes (historyData : List HistoryEntry) (serviceName : String) : List Nat :=
  (processedData historyData serviceName).map (fun i => i.response_time.getD 0)

/-- Number of up checks in the chart window (ServiceHistoryChart.jsx line 159). -/
def upCount (historyData : List HistoryEntry) (serviceName : String) : Nat :=
  ((statusData historyData serviceName).filter (fun x => x == 1)).length

/-- Number of down checks in the chart window (ServiceHistoryChart.jsx line 160). -/
def downCount (historyData : List HistoryEntry) (serviceName : String) : Nat :=
  ((statusData historyData serviceName).filter (fun x => x == 0)).length

/-- Total checks in the chart window (ServiceHistoryChart.jsx line 161). -/
def totalChecks (historyData : List HistoryEntry) (serviceName : String) : Nat :=
  (statusData historyData serviceName).length

/-- Chart uptime percentage before display formatting
(ServiceHistoryChart.jsx line 162). -/
def chartUptimePercentage (historyData : List HistoryEntry) (serviceName : String) : ℚ :=
  if 0 < totalChecks historyData serviceName then
    ((upCount historyData serviceName : ℚ) / (totalChecks historyData serviceName : ℚ)) * 100
  else 0

/-- Average response time before display formatting
(ServiceHistoryChart.jsx lines 163-165). -/
def avgResponseTime (historyData : List HistoryEntry) (serviceName : String) : ℚ :=
  if 0 < (responseTimes historyData serviceName).length then
    ((responseTimes historyData serviceName).sum : ℚ)
      / ((responseTimes historyData serviceName).length : ℚ)
  else 0

/-- Debounced status direction. -/
inductive Status where
  | up
  | down
deriving DecidableEq, Repr

/-- Per-target debounced state (spec section 3, ServiceState). -/
structure ServiceState where
  current_status : Status
  status_since : Nat
  consecutive_success : Nat
  consecutive_failure : Nat
deriving DecidableEq, Repr

/-- Modelled from the spec: the backend StatusTracker step (backend/app.py
is not among the sources; modelled from spec section 4.3 and the README
3-Check System description).  A result in the direction opposite to the
current status increments that direction's counter and resets the other;
when the counter reaches the debounce threshold 3 the status flips,
status_since becomes the confirming check's timestamp, and both counters
reset to zero. -/
def trackResult (st : ServiceState) (ok : Bool) (t : Nat) : ServiceState :=
  if ok then
    if st.current_status = Status.down ∧ 3 ≤ st.consecutive_success + 1 then
      { current_status := Status.up, status_since := t
        consecutive_success := 0, consecutive_failure := 0 }
    else
      { st with consecutive_success := st.consecutive_success + 1, consecutive_failure := 0 }
  else
    if st.current_status = Status.up ∧ 3 ≤ st.consecutive_failure + 1 then
      { current_status := Status.down, status_since := t
        consecutive_success := 0, consecutive_failure := 0 }
    else
      { st with consecutive_failure := st.consecutive_failure + 1, consecutive_success := 0 }

/-- Downtime event as tracked in the global list (spec section 3). -/
structure DownEvent where
  target_name : String
  start_ts : Nat
deriving DecidableEq, Repr

/-- Modelled from the spec: the backend DowntimeTracker opening a new event
(backend/app.py is not among the sources; modelled from spec section 4.5):
the new event is prepended to the most-recent-first global list and the
list is capped at 50 entries, discarding the oldest on overflow. -/
def openDowntime (events : List DownEvent) (e : DownEvent) : List DownEvent :=
  (e :: events).take 50

/-- Invariant carried through the latest-per-name fold: the accumulator has
pairwise distinct names, every accumulated entry comes from the part of the
input already seen, every seen name is represented, and each accumulated
entry's timestamp is maximal among the seen entries with its name. -/
def LatestInv (seen acc : List Service) : Prop :=
  (acc.map Service.name).Nodup ∧
  (∀ t ∈ acc, t ∈ seen) ∧
  (∀ s ∈ seen, ∃ t ∈ acc, t.name = s.name) ∧
  (∀ t ∈ acc, ∀ s ∈ seen, s.name = t.name → s.timestamp ≤ t.timestamp)

/-- Invariant carried through the hosts-view latest-per-name fold, which
replaces an entry only when both timestamps are truthy (nonzero): the
accumulator has pairwise distinct names, every accumulated entry comes from
the seen part of the input, every seen name is represented, and — provided
every seen timestamp is nonzero — each accumulated entry's timestamp is
maximal among the seen entries with its name. -/
def LatestInvH (seen acc : List Service) : Prop :=
  (acc.map Service.name).Nodup ∧
  (∀ t ∈ acc, t ∈ seen) ∧
  (∀ s ∈ seen, ∃ t ∈ acc, t.name = s.name) ∧
  ((∀ x ∈ seen, x.timestamp ≠ 0) →
    ∀ t ∈ acc, ∀ s ∈ seen, s.name = t.name → s.timestamp ≤ t.timestamp)

/-- Following the claim's words for C1: the uptime percentage obtained when
every non-redirect target among the latest entries is monitorable and
counted, with the percentage 0 when no target is monitorable. -/
def claimC1_uptimePercentage (services : List Service) : ℤ :=
  let latest := latestServices services
  let monitorable := latest.filter (fun s => s.type != "redirect")
  let upMonitorable := monitorable.filter (fun s => s.status == "up")
  if monitorable.length = 0 then 0
  else jsRound ((100 : ℚ) * (upMonitorable.length : ℚ) / (monitorable.length : ℚ))

/-- Following the amended claim's words for C1: the uptime percentage
obtained when the monitorable targets are the latest entries whose type is
neither redirect nor host, with the percentage 0 when no target is
monitorable. -/
def amendedC1_uptimePercentage (services : List Service) : ℤ :=
  let latest := latestServices services
  let monitorable := latest.filter (fun s => s.type != "redirect" && s.type != "host")
  let upMonitorable := monitorable.filter (fun s => s.status == "up")
  if monitorable.length = 0 then 0
  else jsRound ((100 : ℚ) * (upMonitorable.length : ℚ) / (monitorable.length : ℚ))

/-- Following the claim's words for C10: the mean response time over all
considered entries, a missing response time counted as 0 (and 0 when there
are no entries). -/
def claimC10_avg (historyData : List HistoryEntry) (serviceName : String) : ℚ :=
  if (processedData historyData serviceName).length = 0 then 0
  else
    ((processedData historyData serviceName).map
        (fun i => ((i.response_time.getD 0 : ℕ) : ℚ))).sum
      / ((processedData historyData serviceName).length : ℚ)

/-- Contrast named in claim C10: the mean over only the entries that do
have a response time. -/
def presentOnlyAvg (historyData : List HistoryEntry) (serviceName : String) : ℚ :=
  let xs := (processedData historyData serviceName).filterMap (fun i => i.response_time)
  if xs.length = 0 then 0 else ((xs.sum : ℕ) : ℚ) / (xs.length : ℚ)

/-- Example: a host-type target that is currently up. -/
def exHostUp : Service :=
  { name := "nas", type := "host", status := "up", timestamp := 1
    ping_url := "10.0.0.1", public_url := "", host := "", category := "infra" }

/-- Example: a stale check result for service a. -/
def exA1 : Service :=
  { name := "a", type := "http", status := "down", timestamp := 1
    ping_url := "p", public_url := "", host := "", category := "web" }

/-- Example: a fresher check result for service a. -/
def exA5 : Service :=
  { name := "a", type := "http", status := "up", timestamp := 5
    ping_url := "p", public_url := "", host := "", category := "web" }

/-- Example: a check result for service a whose stored timestamp is 0,
modelling a falsy timestamp value. -/
def exA0zero : Service :=
  { name := "a", type := "http", status := "down", timestamp := 0
    ping_url := "p", public_url := "", host := "", category := "web" }

/-- Example: a host-type target with network address 10.0.0.1. -/
def exHostN : Service :=
  { name := "nas2", type := "host", status := "up", timestamp := 3
    ping_url := "10.0.0.1", public_url := "", host := "", category := "infra" }

/-- Example: a redirect-type target whose host field names 10.0.0.1. -/
def exRedirH : Service :=
  { name := "wiki", type := "redirect", status := "redirect", timestamp := 3
    ping_url := "", public_url := "https://w", host := "10.0.0.1", category := "links" }

/-- Example: a monitored service running on host 10.0.0.1. -/
def exPlex : Service :=
  { name := "plex", type := "plex", status := "up", timestamp := 3
    ping_url := "http://x", public_url := "", host := "10.0.0.1", category := "media" }

/-- Example: a service whose host field matches no host-type target. -/
def exOrphan : Service :=
  { name := "orphan", type := "plex", status := "up", timestamp := 3
    ping_url := "http://y", public_url := "", host := "10.9.9.9", category := "media" }

/-- Example: 55 history entries for one service, in chronological order. -/
def exBigHist : List HistoryEntry :=
  (List.range 55).map (fun i => { name := "s", timestamp := i, status := "up", response_time := some 1 })

/-- Example: two history entries, one with a response time and one without. -/
def exMixHist : List HistoryEntry :=
  [{ name := "s", timestamp := 1, status := "up", response_time := some 10 },
   { name := "s", timestamp := 2, status := "down", response_time := none }]

theorem latestInv_step (seen acc : List Service) (s : Service) (h : LatestInv seen acc) :
    LatestInv (seen ++ [s]) (upsertLatest acc s) := by
  obtain ⟨h1, h2, h3, h4⟩ := h
  by_cases hx : acc.any (fun t => t.name == s.name) = true
  · unfold upsertLatest
    rw [if_pos hx]
    have hname : ∀ t : Service,
        (if t.name == s.name && decide (t.timestamp < s.timestamp) then s else t).name
          = t.name := by
      intro t
      by_cases hc : (t.name == s.name && decide (t.timestamp < s.timestamp)) = true
      · rw [if_pos hc]
        have := (Bool.and_eq_true _ _).mp hc
        exact (eq_of_beq this.1).symm
      · rw [if_neg hc]
    refine ⟨?_, ?_, ?_, ?_⟩
    · rw [List.map_map]
      have : List.map
          ((fun t : Service => t.name) ∘
            fun t => if t.name == s.name && decide (t.timestamp < s.timestamp) then s else t) acc
          = List.map Service.name acc :=
        List.map_congr_left (fun t _ => hname t)
      rw [this]; exact h1
    · intro x hxm
      obtain ⟨t, ht, rfl⟩ := List.mem_map.mp hxm
      by_cases hc : (t.name == s.name && decide (t.timestamp < s.timestamp)) = true
      · rw [if_pos hc]; exact List.mem_append_right _ (List.mem_singleton.mpr rfl)
      · rw [if_neg hc]; exact List.mem_append_left _ (h2 t ht)
    · intro x hxm
      rcases List.mem_append.mp hxm with hxs | hxs
      · obtain ⟨t, ht, hn⟩ := h3 x hxs
        refine ⟨(fun t => if t.name == s.name && decide (t.timestamp < s.timestamp) then s else t) t,
          List.mem_map_of_mem _ ht, ?_⟩
        rw [hname t]; exact hn
      · rw [List.mem_singleton.mp hxs]
        obtain ⟨t, ht, hts⟩ := List.any_eq_true.mp hx
        refine ⟨(fun t => if t.name == s.name && decide (t.timestamp < s.timestamp) then s else t) t,
          List.mem_map_of_mem _ ht, ?_⟩
        rw [hname t]; exact eq_of_beq hts
    · intro x hxm y hym hyn
      obtain ⟨t, ht, rfl⟩ := List.mem_map.mp hxm
      rw [hname t] at hyn
      by_cases hc : (t.name == s.name && decide (t.timestamp < s.timestamp)) = true
      · have hcc := (Bool.and_eq_true _ _).mp hc
        have hlt : t.timestamp < s.timestamp := of_decide_eq_true hcc.2
        rw [if_pos hc]
        rcases List.mem_append.mp hym with hys | hys
        · exact le_trans (h4 t ht y hys hyn) (le_of_lt hlt)
        · rw [List.mem_singleton.mp hys]
      · rw [if_neg hc]
        rcases List.mem_append.mp hym with hys | hys
        · exact h4 t ht y hys hyn
        · rw [List.mem_singleton.mp hys]
          rw [List.mem_singleton.mp hys] at hyn
          by_cases hb : (t.name == s.name) = true
          · have hnlt : ¬ t.timestamp < s.timestamp := fun hlt =>
              hc ((Bool.and_eq_true _ _).mpr ⟨hb, decide_eq_true hlt⟩)
            omega
          · exact absurd (beq_iff_eq.mpr hyn.symm) hb
  · unfold upsertLatest
    rw [if_neg hx]
    have hnotin : ∀ t ∈ acc, t.name ≠ s.name := by
      intro t ht he
      exact hx (List.any_eq_true.mpr ⟨t, ht, beq_iff_eq.mpr he⟩)
    refine ⟨?_, ?_, ?_, ?_⟩
    · rw [List.map_append]
      rw [List.nodup_append]
      refine ⟨h1, List.nodup_singleton _, ?_⟩
      intro a ha hb
      obtain ⟨t, ht, rfl⟩ := List.mem_map.mp ha
      rw [List.map_singleton, List.mem_singleton] at hb
      exact hnotin t ht hb
    · intro x hxm
      rcases List.mem_append.mp hxm with hxs | hxs
      · exact List.mem_append_left _ (h2 x hxs)
      · exact List.mem_append_right _ hxs
    · intro x hxs
      rcases List.mem_append.mp hxs with hxs | hxs
      · obtain ⟨t, ht, hn⟩ := h3 x hxs
        exact ⟨t, List.mem_append_left _ ht, hn⟩
      · exact ⟨s, List.mem_append_right _ (List.mem_singleton.mpr rfl),
          (List.mem_singleton.mp hxs ▸ rfl)⟩
    · intro x hxm y hym hyn
      rcases List.mem_append.mp hxm with hxs | hxs
      · rcases List.mem_append.mp hym with hys | hys
        · exact h4 x hxs y hys hyn
        · rw [List.mem_singleton.mp hys] at hyn
          exact absurd hyn.symm (hnotin x hxs)
      · rw [List.mem_singleton.mp hxs] at hyn ⊢
        rcases List.mem_append.mp hym with hys | hys
        · obtain ⟨t, ht, hn⟩ := h3 y hys
          exact absurd (hn.trans hyn) (hnotin t ht)
        · rw [List.mem_singleton.mp hys]

theorem latestInv_foldl (l : List Service) :
    ∀ (seen acc : List Service), LatestInv seen acc →
      LatestInv (seen ++ l) (l.foldl upsertLatest acc) := by
  induction l with
  | nil => intro seen acc h; simpa using h
  | cons s l ih =>
    intro seen acc h
    have h2 := ih (seen ++ [s]) (upsertLatest acc s) (latestInv_step seen acc s h)
    simpa [List.append_assoc] using h2

theorem latestInvH_step (seen acc : List Service) (s : Service) (h : LatestInvH seen acc) :
    LatestInvH (seen ++ [s]) (upsertLatestH acc s) := by
  obtain ⟨h1, h2, h3, h4⟩ := h
  by_cases hx : acc.any (fun t => t.name == s.name) = true
  · unfold upsertLatestH
    rw [if_pos hx]
    have hname : ∀ t : Service,
        (if t.name == s.name && s.timestamp != 0 && t.timestamp != 0
            && decide (t.timestamp < s.timestamp) then s else t).name = t.name := by
      intro t
      by_cases hc : (t.name == s.name && s.timestamp != 0 && t.timestamp != 0
          && decide (t.timestamp < s.timestamp)) = true
      · rw [if_pos hc]
        simp only [Bool.and_eq_true] at hc
        exact (eq_of_beq hc.1.1.1).symm
      · rw [if_neg hc]
    refine ⟨?_, ?_, ?_, ?_⟩
    · rw [List.map_map]
      have heq : List.map
          ((fun t : Service => t.name) ∘ fun t =>
            if t.name == s.name && s.timestamp != 0 && t.timestamp != 0
                && decide (t.timestamp < s.timestamp) then s else t) acc
          = List.map Service.name acc :=
        List.map_congr_left (fun t _ => hname t)
      rw [heq]; exact h1
    · intro x hxm
      obtain ⟨t, ht, rfl⟩ := List.mem_map.mp hxm
      by_cases hc : (t.name == s.name && s.timestamp != 0 && t.timestamp != 0
          && decide (t.timestamp < s.timestamp)) = true
      · rw [if_pos hc]; exact List.mem_append_right _ (List.mem_singleton.mpr rfl)
      · rw [if_neg hc]; exact List.mem_append_left _ (h2 t ht)
    · intro x hxs
      rcases List.mem_append.mp hxs with hxs | hxs
      · obtain ⟨t, ht, hn⟩ := h3 x hxs
        exact ⟨_, List.mem_map_of_mem _ ht, by rw [hname t]; exact hn⟩
      · rw [List.mem_singleton.mp hxs]
        obtain ⟨t, ht, hts⟩ := List.any_eq_true.mp hx
        exact ⟨_, List.mem_map_of_mem _ ht, by rw [hname t]; exact eq_of_beq hts⟩
    · intro hnz x hxm y hym hyn
      obtain ⟨t, ht, rfl⟩ := List.mem_map.mp hxm
      rw [hname t] at hyn
      have hnz' : ∀ x ∈ seen, x.timestamp ≠ 0 :=
        fun x hx => hnz x (List.mem_append_left _ hx)
      have hsz : s.timestamp ≠ 0 :=
        hnz s (List.mem_append_right _ (List.mem_singleton.mpr rfl))
      by_cases hc : (t.name == s.name && s.timestamp != 0 && t.timestamp != 0
          && decide (t.timestamp < s.timestamp)) = true
      · have hcc := hc
        simp only [Bool.and_eq_true] at hcc
        have hlt : t.timestamp < s.timestamp := of_decide_eq_true hcc.2
        rw [if_pos hc]
        rcases List.mem_append.mp hym with hys | hys
        · exact le_trans (h4 hnz' t ht y hys hyn) (le_of_lt hlt)
        · rw [List.mem_singleton.mp hys]
      · rw [if_neg hc]
        rcases List.mem_append.mp hym with hys | hys
        · exact h4 hnz' t ht y hys hyn
        · rw [List.mem_singleton.mp hys]
          rw [List.mem_singleton.mp hys] at hyn
          by_cases hb : (t.name == s.name) = true
          · have htz : t.timestamp ≠ 0 := hnz' t (h2 t ht)
            have hnlt : ¬ t.timestamp < s.timestamp := by
              intro hlt
              apply hc
              simp only [Bool.and_eq_true]
              exact ⟨⟨⟨hb, by simpa using hsz⟩, by simpa using htz⟩, decide_eq_true hlt⟩
            omega
          · exact absurd (beq_iff_eq.mpr hyn.symm) hb
  · unfold upsertLatestH
    rw [if_neg hx]
    have hnotin : ∀ t ∈ acc, t.name ≠ s.name := by
      intro t ht he
      exact hx (List.any_eq_true.mpr ⟨t, ht, beq_iff_eq.mpr he⟩)
    refine ⟨?_, ?_, ?_, ?_⟩
    · rw [List.map_append, List.nodup_append]
      refine ⟨h1, List.nodup_singleton _, ?_⟩
      intro a ha hb
      obtain ⟨t, ht, rfl⟩ := List.mem_map.mp ha
      rw [List.map_singleton, List.mem_singleton] at hb
      exact hnotin t ht hb
    · intro x hxm
      rcases List.mem_append.mp hxm with hxs | hxs
      · exact List.mem_append_left _ (h2 x hxs)
      · exact List.mem_append_right _ hxs
    · intro x hxs
      rcases List.mem_append.mp hxs with hxs | hxs
      · obtain ⟨t, ht, hn⟩ := h3 x hxs
        exact ⟨t, List.mem_append_left _ ht, hn⟩
      · exact ⟨s, List.mem_append_right _ (List.mem_singleton.mpr rfl),
          (List.mem_singleton.mp hxs ▸ rfl)⟩
    · intro hnz x hxm y hym hyn
      have hnz' : ∀ x ∈ seen, x.timestamp ≠ 0 :=
        fun x hx => hnz x (List.mem_append_left _ hx)
      rcases List.mem_append.mp hxm with hxs | hxs
      · rcases List.mem_append.mp hym with hys | hys
        · exact h4 hnz' x hxs y hys hyn
        · rw [List.mem_singleton.mp hys] at hyn
          exact absurd hyn.symm (hnotin x hxs)
      · rw [List.mem_singleton.mp hxs] at hyn ⊢
        rcases List.mem_append.mp hym with hys | hys
        · obtain ⟨t, ht, hn⟩ := h3 y hys
          exact absurd (hn.trans hyn) (hnotin t ht)
        · rw [List.mem_singleton.mp hys]

theorem latestInvH_foldl (l : List Service) :
    ∀ (seen acc : List Service), LatestInvH seen acc →
      LatestInvH (seen ++ l) (l.foldl upsertLatestH acc) := by
  induction l with
  | nil => intro seen acc h; simpa using h
  | cons s l ih =>
    intro seen acc h
    have h2 := ih (seen ++ [s]) (upsertLatestH acc s) (latestInvH_step seen acc s h)
    simpa [List.append_assoc] using h2

/-- Claim C4 as stated is false on the code: the host grouping's
latest-per-name fold replaces an entry only when both timestamps are truthy,
so an entry whose stored timestamp is 0 is never replaced.  With a stale
entry a at timestamp 0 and a fresher entry a at timestamp 5, the hosts view
keeps and renders the stale one, not the entry with maximal timestamp. -/
theorem c4_latest_dedup_counterexample :
    exA0zero.name = exA5.name ∧
    exA0zero.timestamp < exA5.timestamp ∧
    latestServicesH [exA0zero, exA5] = [exA0zero] ∧
    (getServicesByHosts [exA0zero, exA5] ["web"]).otherServices = [exA0zero] := by
  refine ⟨rfl, by decide, by decide, by decide⟩

/-- Claim C4 amended: every snapshot view keeps exactly one entry per
service name, each kept entry comes from the input, and the grouped output
and the statistics draw only from the deduplicated views, so no duplicate
name is displayed.  The category grouping and the statistics keep an entry
with the maximal timestamp for its name; the host grouping's fold replaces
an entry only when both timestamps are truthy, so its kept entry has the
maximal timestamp whenever every input timestamp is nonzero. -/
theorem c4_latest_dedup (services : List Service) (categories : List String) :
    ((latestServices services).map Service.name).Nodup ∧
    (∀ t ∈ latestServices services, t ∈ services) ∧
    (∀ s ∈ services, ∃ t ∈ latestServices services, t.name = s.name) ∧
    (∀ t ∈ latestServices services, ∀ s ∈ services,
      s.name = t.name → s.timestamp ≤ t.timestamp) ∧
    (∀ p ∈ getServicesByCategory services categories,
      (p.2.map Service.name).Nodup ∧ ∀ s ∈ p.2, s ∈ latestServices services) ∧
    (((latestServices services).filter
        (fun s => s.type != "redirect" && s.type != "host")).map Service.name).Nodup ∧
    (getServiceStats services).total
      = ((latestServices services).filter
          (fun s => s.type != "redirect" && s.type != "host")).length ∧
    ((latestServicesH services).map Service.name).Nodup ∧
    (∀ t ∈ latestServicesH services, t ∈ services) ∧
    (∀ s ∈ services, ∃ t ∈ latestServicesH services, t.name = s.name) ∧
    ((∀ s ∈ services, s.timestamp ≠ 0) →
      ∀ t ∈ latestServicesH services, ∀ s ∈ services,
        s.name = t.name → s.timestamp ≤ t.timestamp) ∧
    (∀ s ∈ (getServicesByHosts services categories).otherServices,
      s ∈ latestServicesH services) ∧
    ((getServicesByHosts services categories).otherServices.map Service.name).Nodup ∧
    (∀ s ∈ (getServicesByHosts services categories).redirects,
      s ∈ latestServicesH services) ∧
    ((getServicesByHosts services categories).redirects.map Service.name).Nodup ∧
    (∀ e ∈ (getServicesByHosts services categories).hosts,
      (∀ s ∈ e.instances, s ∈ latestServicesH services) ∧
        (e.instances.map Service.name).Nodup) := by
  have h0 : LatestInv [] [] := by simp [LatestInv]
  have hA := latestInv_foldl services [] [] h0
  rw [List.nil_append] at hA
  obtain ⟨h1, h2, h3, h4⟩ := hA
  have h0H : LatestInvH [] [] := by simp [LatestInvH]
  have hD := latestInvH_foldl services [] [] h0H
  rw [List.nil_append] at hD
  obtain ⟨hH1, hH2, hH3, hH4⟩ := hD
  refine ⟨h1, h2, h3, h4, ?_, ?_, ?_, hH1, hH2, hH3, hH4, ?_, ?_, ?_, ?_, ?_⟩
  · intro p hp
    simp only [getServicesByCategory, List.mem_map] at hp
    obtain ⟨c, _, rfl⟩ := hp
    constructor
    · exact List.Nodup.sublist ((List.filter_sublist _).map Service.name) h1
    · intro s hs
      exact (List.mem_filter.mp hs).1
  · exact List.Nodup.sublist ((List.filter_sublist _).map Service.name) h1
  · rfl
  · intro s hs
    simp only [getServicesByHosts] at hs
    exact (List.mem_filter.mp hs).1
  · simp only [getServicesByHosts]
    exact List.Nodup.sublist ((List.filter_sublist _).map Service.name) hH1
  · intro s hs
    simp only [getServicesByHosts] at hs
    exact (List.mem_filter.mp (List.mem_mergeSort.mp hs)).1
  · simp only [getServicesByHosts]
    have hperm := (List.mergeSort_perm ((latestServicesH services).filter
        (fun s => s.type != "host" && s.type == "redirect")) (instLE categories)).map
      Service.name
    exact hperm.nodup_iff.mpr
      (List.Nodup.sublist ((List.filter_sublist _).map Service.name) hH1)
  · intro e he
    simp only [getServicesByHosts] at he
    obtain ⟨p, hp, rfl⟩ := List.mem_map.mp he
    simp only
    constructor
    · intro s hs
      have hs' := List.mem_filter.mp (List.mem_mergeSort.mp hs)
      exact (List.mem_filter.mp hs'.1).1
    · have hperm := (List.mergeSort_perm (((latestServicesH services).filter
          (fun x => x.type != "host" && x.type != "redirect" && x.host != "")).filter
          (fun x => x.host == p.1)) (instLE categories)).map Service.name
      refine hperm.nodup_iff.mpr ?_
      refine List.Nodup.sublist (List.Sublist.map Service.name ?_) hH1
      exact (List.filter_sublist _).trans (List.filter_sublist _)

theorem c4_latest_dedup_witness :
    (∃ t ∈ latestServices [exA1, exA5],
      t.name = "a" ∧ exA1.timestamp ≤ t.timestamp) ∧
    (∃ t ∈ latestServicesH [exA1, exA5],
      t.name = "a" ∧ exA1.timestamp ≤ t.timestamp) := by
  obtain ⟨_, _, h3, h4, _, _, _, _, _, hH3, hH4, _⟩ := c4_latest_dedup [exA1, exA5] []
  constructor
  · obtain ⟨t, ht, hn⟩ := h3 exA1 (by simp)
    have hna : t.name = "a" := by rw [hn]; rfl
    exact ⟨t, ht, hna, h4 t ht exA1 (by simp) hn.symm⟩
  · obtain ⟨t, ht, hn⟩ := hH3 exA1 (by simp)
    have hna : t.name = "a" := by rw [hn]; rfl
    exact ⟨t, ht, hna, hH4 (by decide) t ht exA1 (by simp) hn.symm⟩

/-- Claim C5: the snapshot aggregation is deterministic; two evaluations on
equal inputs produce equal groupings and statistics. -/
theorem c5_snapshot_deterministic (s₁ s₂ : List Service) (c₁ c₂ : List String)
    (hs : s₁ = s₂) (hc : c₁ = c₂) :
    getServicesByCategory s₁ c₁ = getServicesByCategory s₂ c₂ ∧
    getServiceStats s₁ = getServiceStats s₂ ∧
    getServicesByHosts s₁ c₁ = getServicesByHosts s₂ c₂ := by
  subst hs; subst hc
  exact ⟨rfl, rfl, rfl⟩

theorem c5_snapshot_deterministic_witness :
    getServicesByCategory [exA1] ["web"] = getServicesByCategory [exA1] ["web"] ∧
    getServiceStats [exA1] = getServiceStats [exA1] ∧
    getServicesByHosts [exA1] ["web"] = getServicesByHosts [exA1] ["web"] :=
  c5_snapshot_deterministic [exA1] [exA1] ["web"] ["web"] rfl rfl

theorem tsLE_trans (a b c : HistoryEntry) (hab : tsLE a b = true) (hbc : tsLE b c = true) :
    tsLE a c = true := by
  unfold tsLE at *
  exact decide_eq_true (le_trans (of_decide_eq_true hab) (of_decide_eq_true hbc))

theorem tsLE_total (a b : HistoryEntry) : (tsLE a b || tsLE b a) = true := by
  unfold tsLE
  rcases Nat.le_total a.timestamp b.timestamp with h | h
  · rw [decide_eq_true h]; rfl
  · rw [decide_eq_true h, Bool.or_true]

/-- Claim C6: the data points consumed for display are in chronological
order; the timestamps of the processed sequence are nondecreasing. -/
theorem c6_processed_chronological (historyData : List HistoryEntry) (serviceName : String) :
    List.Pairwise (fun a b => a.timestamp ≤ b.timestamp)
      (processedData historyData serviceName) := by
  have hs := List.sorted_mergeSort tsLE_trans tsLE_total
    (historyData.filter (fun i => i.name == serviceName))
  have hp : List.Pairwise (fun a b : HistoryEntry => a.timestamp ≤ b.timestamp)
      ((historyData.filter (fun i => i.name == serviceName)).mergeSort tsLE) :=
    hs.imp (fun hab => of_decide_eq_true hab)
  simp only [processedData]
  exact List.Pairwise.sublist (List.drop_sublist _ _) hp

/-- Claim C3: the debounced state machine flips status exactly when the
third consecutive opposite-direction result arrives; a result increments
its own direction's counter and resets the opposite one; on a flip,
status_since becomes the confirming timestamp and both counters reset; two
failures followed by a success leave an up status unchanged.  The backend
StatusTracker is modelled from the specification because backend/app.py is
not among the sources. -/
theorem c3_status_flip_debounce (st : ServiceState) (ok : Bool) (t : ℕ) :
    ((trackResult st ok t).current_status ≠ st.current_status ↔
      ((ok = true ∧ st.current_status = Status.down ∧ 2 ≤ st.consecutive_success) ∨
        (ok = false ∧ st.current_status = Status.up ∧ 2 ≤ st.consecutive_failure))) ∧
    ((trackResult st ok t).current_status ≠ st.current_status →
      (trackResult st ok t).status_since = t ∧
        (trackResult st ok t).consecutive_success = 0 ∧
        (trackResult st ok t).consecutive_failure = 0) ∧
    (ok = true → (trackResult st ok t).current_status = st.current_status →
      (trackResult st ok t).consecutive_success = st.consecutive_success + 1 ∧
        (trackResult st ok t).consecutive_failure = 0) ∧
    (ok = false → (trackResult st ok t).current_status = st.current_status →
      (trackResult st ok t).consecutive_failure = st.consecutive_failure + 1 ∧
        (trackResult st ok t).consecutive_success = 0) ∧
    (st.current_status = Status.up → st.consecutive_failure = 0 →
      ∀ t₁ t₂ t₃ : ℕ,
        (trackResult (trackResult (trackResult st false t₁) false t₂) true t₃).current_status
          = Status.up) := by
  refine ⟨?_, ?_, ?_, ?_, ?_⟩
  · obtain ⟨cs, ss, a, b⟩ := st
    cases ok <;> cases cs <;>
      (simp only [trackResult]
       split_ifs <;> simp_all)
  · obtain ⟨cs, ss, a, b⟩ := st
    cases ok <;> cases cs <;>
      (simp only [trackResult]
       split_ifs <;> simp_all)
  · intro hok
    subst hok
    obtain ⟨cs, ss, a, b⟩ := st
    cases cs <;>
      (simp only [trackResult]
       split_ifs <;> simp_all)
  · intro hok
    subst hok
    obtain ⟨cs, ss, a, b⟩ := st
    cases cs <;>
      (simp only [trackResult]
       split_ifs <;> simp_all)
  · intro hup hb0 t₁ t₂ t₃
    obtain ⟨cs, ss, a, b⟩ := st
    simp only at hup hb0
    subst hup
    subst hb0
    simp [trackResult]

theorem c3_status_flip_debounce_witness :
    (trackResult (trackResult (trackResult
        { current_status := Status.up, status_since := 0
          consecutive_success := 0, consecutive_failure := 0 } false 1) false 2) true 3
      ).current_status = Status.up :=
  (c3_status_flip_debounce
    { current_status := Status.up, status_since := 0
      consecutive_success := 0, consecutive_failure := 0 } false 0).2.2.2.2 rfl rfl 1 2 3

/-- Claim C7: the global downtime-event list stays capped at 50 and ordered
most-recent-first; opening a new event with 50 already present evicts the
oldest and keeps the length at 50.  The backend DowntimeTracker is modelled
from the specification because backend/app.py is not among the sources. -/
theorem c7_downtime_cap (events : List DownEvent) (e : DownEvent) :
    (openDowntime events e).length ≤ 50 ∧
    (openDowntime events e).head? = some e ∧
    (events.length = 50 →
      openDowntime events e = e :: events.dropLast ∧ (openDowntime events e).length = 50) ∧
    ((∀ x ∈ events, x.start_ts ≤ e.start_ts) →
      List.Pairwise (fun a b => b.start_ts ≤ a.start_ts) events →
      List.Pairwise (fun a b => b.start_ts ≤ a.start_ts) (openDowntime events e)) := by
  refine ⟨?_, ?_, ?_, ?_⟩
  · simp [openDowntime, List.length_take]
  · simp [openDowntime, List.head?_take]
  · intro h
    constructor
    · show (e :: events).take 50 = e :: events.dropLast
      rw [List.dropLast_eq_take, h]
      rw [show (50 : ℕ) = 49 + 1 from rfl, List.take_succ_cons]
    · simp [openDowntime, List.length_take, h]
  · intro hle hpw
    have hall : List.Pairwise (fun a b : DownEvent => b.start_ts ≤ a.start_ts) (e :: events) :=
      List.pairwise_cons.mpr ⟨hle, hpw⟩
    exact List.Pairwise.sublist (List.take_sublist _ _) hall

/-- Claim C1 as stated is false on the code: for a snapshot holding one
host-type target that is up, the claim's formula (every non-redirect target
is monitorable and counted) yields 100, while getServiceStats also filters
out host-type targets and displays 0. -/
theorem c1_uptime_counterexample :
    claimC1_uptimePercentage [exHostUp] = 100 ∧
    (getServiceStats [exHostUp]).uptimePercentage = 0 := by
  constructor
  · have hl : latestServices [exHostUp] = [exHostUp] := by decide
    have hf : [exHostUp].filter (fun s => s.type != "redirect") = [exHostUp] := by decide
    have hu : [exHostUp].filter (fun s => s.status == "up") = [exHostUp] := by decide
    simp only [claimC1_uptimePercentage, hl, hf, hu, List.length_singleton]
    norm_num [jsRound]
  · decide

/-- Claim C1 amended: the displayed uptime percentage equals
round(100 * up_count / monitorable_count) where the monitorable targets are
the latest entries whose type is neither redirect nor host, and the
percentage is 0 when no target is monitorable. -/
theorem c1_uptime_amended (services : List Service) :
    (getServiceStats services).uptimePercentage = amendedC1_uptimePercentage services := by
  simp only [getServiceStats, amendedC1_uptimePercentage]
  by_cases h :
      ((latestServices services).filter
        (fun s => s.type != "redirect" && s.type != "host")).length = 0
  · simp [h]
  · have hpos : 0 < ((latestServices services).filter
        (fun s => s.type != "redirect" && s.type != "host")).length := Nat.pos_of_ne_zero h
    rw [if_pos hpos, if_neg h]
    congr 1
    ring

theorem hostsFold_sound (S : List Service) (l : List Service) :
    ∀ acc : List (String × Service),
      (∀ s ∈ l, s ∈ S) →
      (∀ p ∈ acc, p.1 = p.2.ping_url ∧ p.2 ∈ S) →
      ∀ p ∈ l.foldl hostsUpsert acc, p.1 = p.2.ping_url ∧ p.2 ∈ S := by
  induction l with
  | nil => intro acc _ hacc p hp; exact hacc p hp
  | cons s l ih =>
    intro acc hl hacc
    refine ih (hostsUpsert acc s) (fun x hx => hl x (List.mem_cons_of_mem _ hx)) ?_
    intro p hp
    unfold hostsUpsert at hp
    by_cases hx : acc.any (fun q => q.1 == s.ping_url) = true
    · rw [if_pos hx] at hp
      obtain ⟨q, hq, rfl⟩ := List.mem_map.mp hp
      by_cases hqs : (q.1 == s.ping_url) = true
      · rw [if_pos hqs]
        exact ⟨eq_of_beq hqs, hl s (List.mem_cons_self _ _)⟩
      · rw [if_neg hqs]
        exact hacc q hq
    · rw [if_neg hx] at hp
      rcases List.mem_append.mp hp with h | h
      · exact hacc p h
      · rw [List.mem_singleton.mp h]
        exact ⟨rfl, hl s (List.mem_cons_self _ _)⟩

theorem hostsFold_keys_mono (l : List Service) :
    ∀ (acc : List (String × Service)) (k : String),
      (∃ w, (k, w) ∈ acc) → ∃ w, (k, w) ∈ l.foldl hostsUpsert acc := by
  induction l with
  | nil => intro acc k h; exact h
  | cons s l ih =>
    intro acc k h
    refine ih (hostsUpsert acc s) k ?_
    obtain ⟨w, hw⟩ := h
    unfold hostsUpsert
    by_cases hx : acc.any (fun q => q.1 == s.ping_url) = true
    · rw [if_pos hx]
      by_cases hks : ((k, w).1 == s.ping_url) = true
      · refine ⟨s, ?_⟩
        have he : (fun q : String × Service => if q.1 == s.ping_url then (q.1, s) else q) (k, w)
            = (k, s) := by simp [hks]
        exact he ▸ List.mem_map_of_mem _ hw
      · refine ⟨w, ?_⟩
        have he : (fun q : String × Service => if q.1 == s.ping_url then (q.1, s) else q) (k, w)
            = (k, w) := by simp [hks]
        exact he ▸ List.mem_map_of_mem _ hw
    · rw [if_neg hx]
      exact ⟨w, List.mem_append_left _ hw⟩

theorem hostsFold_complete (l : List Service) :
    ∀ acc : List (String × Service), ∀ v ∈ l, ∃ w, (v.ping_url, w) ∈ l.foldl hostsUpsert acc := by
  induction l with
  | nil => intro acc v hv; exact absurd hv (List.not_mem_nil v)
  | cons s l ih =>
    intro acc v hv
    rcases List.mem_cons.mp hv with hvs | hv
    · subst hvs
      refine hostsFold_keys_mono l (hostsUpsert acc v) v.ping_url ?_
      unfold hostsUpsert
      by_cases hx : acc.any (fun q => q.1 == v.ping_url) = true
      · rw [if_pos hx]
        obtain ⟨q, hq, hqs⟩ := List.any_eq_true.mp hx
        refine ⟨v, ?_⟩
        have he : (fun p : String × Service => if p.1 == v.ping_url then (p.1, v) else p) q
            = (v.ping_url, v) := by simp [hqs, eq_of_beq hqs]
        exact he ▸ List.mem_map_of_mem _ hq
      · rw [if_neg hx]
        exact ⟨v, List.mem_append_right _ (List.mem_singleton.mpr rfl)⟩
    · exact ih (hostsUpsert acc s) v hv

theorem instLE_trans (categories : List String) (a b c : Service)
    (hab : instLE categories a b = true) (hbc : instLE categories b c = true) :
    instLE categories a c = true := by
  unfold instLE at *
  by_cases h₁ : catIdx categories a.category = catIdx categories b.category <;>
    by_cases h₂ : catIdx categories b.category = catIdx categories c.category
  · rw [if_pos h₁] at hab
    rw [if_pos h₂] at hbc
    rw [if_pos (h₁.trans h₂)]
    exact decide_eq_true (le_trans (of_decide_eq_true hab) (of_decide_eq_true hbc))
  · rw [if_neg h₂] at hbc
    have hbc' := of_decide_eq_true hbc
    have hne : catIdx categories a.category ≠ catIdx categories c.category := by
      rw [h₁]; exact ne_of_lt hbc'
    rw [if_neg hne]
    exact decide_eq_true (h₁ ▸ hbc')
  · rw [if_neg h₁] at hab
    have hab' := of_decide_eq_true hab
    have hne : catIdx categories a.category ≠ catIdx categories c.category := by
      rw [← h₂]; exact ne_of_lt hab'
    rw [if_neg hne]
    exact decide_eq_true (h₂ ▸ hab')
  · rw [if_neg h₁] at hab
    rw [if_neg h₂] at hbc
    have hab' := of_decide_eq_true hab
    have hbc' := of_decide_eq_true hbc
    have hlt := lt_trans hab' hbc'
    rw [if_neg (ne_of_lt hlt)]
    exact decide_eq_true hlt

theorem instLE_total (categories : List String) (a b : Service) :
    (instLE categories a b || instLE categories b a) = true := by
  unfold instLE
  by_cases h : catIdx categories a.category = catIdx categories b.category
  · rw [if_pos h, if_pos h.symm]
    rcases le_total a.name b.name with h₁ | h₁
    · rw [decide_eq_true h₁, Bool.true_or]
    · rw [decide_eq_true h₁, Bool.or_true]
  · rw [if_neg h, if_neg (fun e => h e.symm)]
    rcases lt_or_gt_of_ne h with h₁ | h₁
    · rw [decide_eq_true h₁, Bool.true_or]
    · rw [decide_eq_true h₁, Bool.or_true]

theorem instLE_prop (categories : List String) (a b : Service)
    (h : instLE categories a b = true) :
    catIdx categories a.category < catIdx categories b.category ∨
      (catIdx categories a.category = catIdx categories b.category ∧ a.name ≤ b.name) := by
  unfold instLE at h
  by_cases he : catIdx categories a.category = catIdx categories b.category
  · rw [if_pos he] at h
    exact Or.inr ⟨he, of_decide_eq_true h⟩
  · rw [if_neg he] at h
    exact Or.inl (of_decide_eq_true h)

/-- Claim C2 as stated is false on the code: the redirect-type target
exRedirH has a host field matching the host-type target exHostN's network
address (its ping_url 10.0.0.1), yet it is not nested under that host as an
instance (every instance list in the grouping is empty); it is routed to
the redirects list instead. -/
theorem c2_host_grouping_counterexample :
    exRedirH.host = exHostN.ping_url ∧
    (getServicesByHosts [exHostN, exRedirH] ["infra", "links"]).hosts.map HostEntry.instances
      = [[]] ∧
    exRedirH ∈ (getServicesByHosts [exHostN, exRedirH] ["infra", "links"]).redirects := by
  have h1 : latestServicesH [exHostN, exRedirH] = [exHostN, exRedirH] := by decide
  have h2 : [exHostN, exRedirH].filter (fun s => s.type == "host") = [exHostN] := by decide
  have h3 : [exHostN, exRedirH].filter (fun s => s.type != "host" && s.type == "redirect")
      = [exRedirH] := by decide
  have h4 : [exHostN, exRedirH].filter
      (fun s => s.type != "host" && s.type != "redirect" && s.host != "") = [] := by decide
  have h5 : [exHostN].foldl hostsUpsert [] = [("10.0.0.1", exHostN)] := by decide
  refine ⟨rfl, ?_, ?_⟩
  · simp only [getServicesByHosts, h1, h2, h3, h4, h5]
    simp
  · simp only [getServicesByHosts, h1, h2, h3, h4, h5]
    simp [List.mergeSort_singleton]

/-- Claim C2 amended: among the latest services, every non-host,
non-redirect target whose host field matches a host entry's key is nested
under that entry as an instance (a redirect-type target is routed to the
redirects list instead of being nested, and host-type targets form the
entries themselves); every host-type target yields a host entry keyed by
its ping_url whose displayed service is a host-type target with that
ping_url; and each entry's instances are sorted by category order, then by
name. -/
theorem c2_host_grouping_amended (services : List Service) (categories : List String) :
    (∀ s ∈ latestServicesH services, s.type ≠ "host" → s.type ≠ "redirect" → s.host ≠ "" →
      ∀ e ∈ (getServicesByHosts services categories).hosts,
        e.key = s.host → s ∈ e.instances) ∧
    (∀ s ∈ latestServicesH services, s.type = "host" →
      ∃ e ∈ (getServicesByHosts services categories).hosts,
        e.key = s.ping_url ∧ e.service.type = "host" ∧ e.service.ping_url = s.ping_url) ∧
    (∀ e ∈ (getServicesByHosts services categories).hosts,
      List.Pairwise (fun a b =>
        catIdx categories a.category < catIdx categories b.category ∨
          (catIdx categories a.category = catIdx categories b.category ∧ a.name ≤ b.name))
        e.instances) := by
  refine ⟨?_, ?_, ?_⟩
  · intro s hs h1 h2 h3 e he hk
    simp only [getServicesByHosts] at he
    obtain ⟨p, hp, rfl⟩ := List.mem_map.mp he
    simp only at hk ⊢
    apply List.mem_mergeSort.mpr
    apply List.mem_filter.mpr
    constructor
    · apply List.mem_filter.mpr
      refine ⟨hs, ?_⟩
      simp [bne_iff_ne, h1, h2, h3]
    · exact beq_iff_eq.mpr hk.symm
  · intro s hs hh
    have hsf : s ∈ (latestServicesH services).filter (fun x => x.type == "host") :=
      List.mem_filter.mpr ⟨hs, beq_iff_eq.mpr hh⟩
    obtain ⟨w, hw⟩ :=
      hostsFold_complete ((latestServicesH services).filter (fun x => x.type == "host")) [] s hsf
    have hsound :=
      hostsFold_sound ((latestServicesH services).filter (fun x => x.type == "host"))
        ((latestServicesH services).filter (fun x => x.type == "host")) []
        (fun x hx => hx) (fun p hp => absurd hp (List.not_mem_nil p)) (s.ping_url, w) hw
    have hwt : w.type = "host" := by
      have := (List.mem_filter.mp hsound.2).2
      exact eq_of_beq this
    refine ⟨_, List.mem_map_of_mem
      (fun p : String × Service =>
        ({ key := p.1, service := p.2,
           instances :=
             (((latestServicesH services).filter
                 (fun x => x.type != "host" && x.type != "redirect" && x.host != "")).filter
               (fun x => x.host == p.1)).mergeSort (instLE categories) } : HostEntry)) hw,
      rfl, hwt, hsound.1.symm⟩
  · intro e he
    simp only [getServicesByHosts] at he
    obtain ⟨p, hp, rfl⟩ := List.mem_map.mp he
    simp only
    have hs := @List.sorted_mergeSort Service (instLE categories)
      (instLE_trans categories) (instLE_total categories)
      (((latestServicesH services).filter
          (fun x => x.type != "host" && x.type != "redirect" && x.host != "")).filter
        (fun x => x.host == p.1))
    exact hs.imp (fun hab => instLE_prop _ _ _ hab)

theorem c2_host_grouping_amended_witness :
    ∃ e ∈ (getServicesByHosts [exHostN, exPlex] ["infra", "media"]).hosts,
      e.key = "10.0.0.1" ∧ exPlex ∈ e.instances := by
  obtain ⟨ha, hb, _⟩ := c2_host_grouping_amended [exHostN, exPlex] ["infra", "media"]
  obtain ⟨e, he, hkey, _, _⟩ := hb exHostN (by decide) (by decide)
  refine ⟨e, he, ?_, ?_⟩
  · rw [hkey]; decide
  · exact ha exPlex (by decide) (by decide) (by decide) (by decide) e he (by rw [hkey]; decide)

/-- Claim C8: among the latest services, a non-host, non-redirect target
with a non-empty host field matching no host-type target's network address
is rendered nowhere: it is neither in the other-services group, nor among
the redirects, nor nested under any host entry. -/
theorem c8_unmatched_host_dropped (services : List Service) (categories : List String) :
    ∀ s ∈ latestServicesH services, s.type ≠ "host" → s.type ≠ "redirect" → s.host ≠ "" →
      (∀ t ∈ latestServicesH services, t.type = "host" → t.ping_url ≠ s.host) →
      s ∉ (getServicesByHosts services categories).otherServices ∧
      s ∉ (getServicesByHosts services categories).redirects ∧
      ∀ e ∈ (getServicesByHosts services categories).hosts, s ∉ e.instances := by
  intro s hs h1 h2 h3 hnone
  simp only [getServicesByHosts]
  refine ⟨?_, ?_, ?_⟩
  · intro hmem
    have hcc := (List.mem_filter.mp hmem).2
    simp only [Bool.and_eq_true, bne_iff_ne, beq_iff_eq] at hcc
    exact h3 hcc.2
  · intro hmem
    have hmem' := List.mem_mergeSort.mp hmem
    have hcc := (List.mem_filter.mp hmem').2
    simp only [Bool.and_eq_true, bne_iff_ne, beq_iff_eq] at hcc
    exact h2 hcc.2
  · intro e he hsin
    obtain ⟨p, hp, rfl⟩ := List.mem_map.mp he
    have hsound :=
      hostsFold_sound ((latestServicesH services).filter (fun x => x.type == "host"))
        ((latestServicesH services).filter (fun x => x.type == "host")) []
        (fun x hx => hx) (fun q hq => absurd hq (List.not_mem_nil q)) p hp
    have hpf := List.mem_filter.mp hsound.2
    have hptype : p.2.type = "host" := eq_of_beq hpf.2
    have hkey : p.1 ≠ s.host := by
      rw [hsound.1]
      exact hnone p.2 hpf.1 hptype
    simp only at hsin
    have hsin' := List.mem_mergeSort.mp hsin
    have hcc := (List.mem_filter.mp hsin').2
    exact hkey (eq_of_beq hcc).symm

theorem c8_unmatched_host_dropped_witness :
    exOrphan ∉ (getServicesByHosts [exHostN, exOrphan] ["infra", "media"]).otherServices ∧
    exOrphan ∉ (getServicesByHosts [exHostN, exOrphan] ["infra", "media"]).redirects := by
  obtain ⟨h1, h2, _⟩ := c8_unmatched_host_dropped [exHostN, exOrphan] ["infra", "media"]
    exOrphan (by decide) (by decide) (by decide) (by decide) (by decide)
  exact ⟨h1, h2⟩

theorem c7_downtime_cap_witness :
    (openDowntime (List.replicate 50 { target_name := "a", start_ts := 0 })
      { target_name := "b", start_ts := 9 }).length = 50 :=
  ((c7_downtime_cap (List.replicate 50 { target_name := "a", start_ts := 0 })
    { target_name := "b", start_ts := 9 }).2.2.1 (by simp)).2

/-- Claim C9: the chart statistics are computed over at most the 50 most
recent entries of the selected service: the total equals the minimum of the
number of matching entries and 50, the up count is taken over the processed
window only, the response-time series ranges over the same window, and
every matching entry excluded from the window is no newer than every
included one. -/
theorem c9_window_cap (historyData : List HistoryEntry) (serviceName : String) :
    totalChecks historyData serviceName
        = min (historyData.filter (fun i => i.name == serviceName)).length 50 ∧
    (processedData historyData serviceName).length ≤ 50 ∧
    upCount historyData serviceName
        = ((processedData historyData serviceName).filter (fun i => i.status == "up")).length ∧
    (responseTimes historyData serviceName).length = totalChecks historyData serviceName ∧
    (∀ a ∈ historyData.filter (fun i => i.name == serviceName),
      a ∉ processedData historyData serviceName →
      ∀ b ∈ processedData historyData serviceName, a.timestamp ≤ b.timestamp) := by
  have hlen : (processedData historyData serviceName).length
      = min (historyData.filter (fun i => i.name == serviceName)).length 50 := by
    simp only [processedData]
    rw [List.length_drop]
    rw [(List.mergeSort_perm (historyData.filter (fun i => i.name == serviceName)) tsLE).length_eq]
    omega
  refine ⟨?_, ?_, ?_, ?_, ?_⟩
  · simp only [totalChecks, statusData, List.length_map]
    exact hlen
  · rw [hlen]
    omega
  · simp only [upCount, statusData]
    rw [List.filter_map, List.length_map]
    congr 1
    apply List.filter_congr
    intro x _
    by_cases hx : (x.status == "up") = true
    · simp [Function.comp, hx]
    · simp [Function.comp, hx]
  · simp only [responseTimes, totalChecks, statusData, List.length_map]
  · intro a ha hnot b hb
    have hpw := @List.sorted_mergeSort HistoryEntry tsLE tsLE_trans tsLE_total
      (historyData.filter (fun i => i.name == serviceName))
    have hproc : processedData historyData serviceName
        = ((historyData.filter (fun i => i.name == serviceName)).mergeSort tsLE).drop
            (((historyData.filter (fun i => i.name == serviceName)).mergeSort tsLE).length - 50) :=
      rfl
    rw [hproc] at hnot hb
    have haL : a ∈ (historyData.filter (fun i => i.name == serviceName)).mergeSort tsLE :=
      List.mem_mergeSort.mpr ha
    have hsplit := List.take_append_drop
      ((((historyData.filter (fun i => i.name == serviceName)).mergeSort tsLE).length - 50))
      ((historyData.filter (fun i => i.name == serviceName)).mergeSort tsLE)
    have hmem : a ∈ ((historyData.filter (fun i => i.name == serviceName)).mergeSort tsLE).take
          (((historyData.filter (fun i => i.name == serviceName)).mergeSort tsLE).length - 50)
        ++ ((historyData.filter (fun i => i.name == serviceName)).mergeSort tsLE).drop
          (((historyData.filter (fun i => i.name == serviceName)).mergeSort tsLE).length - 50) := by
      rw [hsplit]
      exact haL
    rcases List.mem_append.mp hmem with htake | hdrop
    · have hpw' := hpw
      rw [← hsplit] at hpw'
      have hcross := (List.pairwise_append.mp hpw').2.2
      exact of_decide_eq_true (hcross a htake b hb)
    · exact absurd hdrop hnot

theorem c9_window_cap_witness :
    totalChecks exBigHist "s" = 50 ∧
    (0 : ℕ) ≤ 54 ∧
    ({ name := "s", timestamp := 0, status := "up", response_time := some 1 } :
        HistoryEntry).timestamp
      ≤ ({ name := "s", timestamp := 54, status := "up", response_time := some 1 } :
        HistoryEntry).timestamp := by
  obtain ⟨h1, _, _, _, h5⟩ := c9_window_cap exBigHist "s"
  have hf : exBigHist.filter (fun i => i.name == "s") = exBigHist := by decide
  have hsorted : List.Pairwise (fun a b => tsLE a b = true) exBigHist := by decide
  have hproc : processedData exBigHist "s" = exBigHist.drop 5 := by
    simp only [processedData, hf, List.mergeSort_of_sorted hsorted]
    norm_num [exBigHist]
  refine ⟨?_, Nat.zero_le _, ?_⟩
  · rw [h1, hf]
    decide
  · refine h5 { name := "s", timestamp := 0, status := "up", response_time := some 1 }
      ?_ ?_ { name := "s", timestamp := 54, status := "up", response_time := some 1 } ?_
    · rw [hf]; decide
    · rw [hproc]; decide
    · rw [hproc]; decide

/-- Claim C10: the chart substitutes 0 for a missing response time, so the
average response time is the mean over all considered entries with missing
values counted as 0; on the example history this gives 5, not the mean 10
over only the entries that have a response time. -/
theorem c10_missing_response_as_zero :
    (∀ (historyData : List HistoryEntry) (serviceName : String),
      avgResponseTime historyData serviceName = claimC10_avg historyData serviceName) ∧
    avgResponseTime exMixHist "s" = 5 ∧
    presentOnlyAvg exMixHist "s" = 10 := by
  have hf : exMixHist.filter (fun i => i.name == "s") = exMixHist := by decide
  have hsorted : List.Pairwise (fun a b => tsLE a b = true) exMixHist := by decide
  have hproc : processedData exMixHist "s" = exMixHist := by
    simp only [processedData, hf, List.mergeSort_of_sorted hsorted]
    norm_num [exMixHist]
  refine ⟨?_, ?_, ?_⟩
  · intro historyData serviceName
    simp only [avgResponseTime, claimC10_avg, responseTimes, List.length_map]
    by_cases hl : (processedData historyData serviceName).length = 0
    · simp [hl]
    · have hpos : 0 < (processedData historyData serviceName).length := Nat.pos_of_ne_zero hl
      rw [if_pos hpos, if_neg hl]
      rw [Nat.cast_list_sum, List.map_map]
      rfl
  · simp only [avgResponseTime, responseTimes, hproc]
    norm_num [exMixHist, Option.getD]
  · simp only [presentOnlyAvg, hproc]
    norm_num [exMixHist, List.filterMap]

end HomePage
